import Mathlib

/-!
Shallow embedding of the sudoku_rust solver core
(src/lib.rs, src/solver.rs, src/simd.rs).

Conventions of the embedding:
* Rust machine integers (u8 cell values, u16 candidate bitmasks) are
  modelled as Nat; the cast `val as u8` in Board::new is modelled as
  `% 256`.  All bitmask values the embedded code produces stay below
  2 ^ 16, matching the u16 of the source.
* A Rust panic that a claim depends on (the out-of-bounds index
  `seen[num]` in validate_solution_fallback) is modelled by an Option
  result, with none for the panic.
* The parallel fan-out of Solver::solve (rayon find_map_first over the
  top-level candidates, gated by the solution_found flag and a bounded
  channel) is modelled by its sequential first-success schedule: the
  candidates are tried in their sorted order and the first branch whose
  recursive search succeeds delivers the board.  Under that schedule the
  matches_api flag is exactly "the winning board equals the reference
  solution".  The channel send/recv timeouts are assumed not to fire.
* try_solve_with_value receives the per-branch legality test
  (SimdSolver::is_valid_candidate when a mask engine is present, else
  Solver::is_valid_placement) as an explicit function argument `valid`,
  so every architecture configuration is an instance of the one model.
-/

namespace Sudoku

/-- u16::count_ones (CandidateSet::count_candidates): the number of set
bits among the 16 bits of a u16 value. -/
def count_ones (n : Nat) : Nat :=
  ((List.range 16).filter (fun i => n.testBit i)).length

/-- src/lib.rs Board: a flat 81-cell row-major array, modelled as a list. -/
structure Board where
  cells : List Nat
deriving DecidableEq, Repr

/-- Board::new: builds the 81 cells from a 2D grid, `val as u8` modelled
as `% 256`.  For 9 x 9 grids this is the source's write loop over a
zero-initialised array; absent entries stay 0, exactly as in the source. -/
def Board.new (grid : List (List Nat)) : Board :=
  ⟨(List.range 81).map fun i => ((grid.getD (i / 9) []).getD (i % 9) 0) % 256⟩

/-- Board::get. -/
def Board.get (b : Board) (row col : Nat) : Nat :=
  b.cells.getD (row * 9 + col) 0

/-- Board::set. -/
def Board.set (b : Board) (row col value : Nat) : Board :=
  ⟨b.cells.set (row * 9 + col) value⟩

/-- Board::to_vec. -/
def Board.to_vec (b : Board) : List (List Nat) :=
  (List.range 9).map fun i => (List.range 9).map fun j => b.get i j

/-- Board::is_empty_cell. -/
def Board.is_empty_cell (b : Board) (row col : Nat) : Bool :=
  b.get row col == 0

/-- One row/column/box sweep of the vector validation path
(SimdBoard::is_valid_row and the column/box loops of
SimdValidator::validate_solution): reject 0, reject values above 9,
reject duplicates.  The source's `seen : [bool; 10]` array is modelled
by the list of values already seen. -/
def scan_unit : List Nat → List Nat → Bool
  | _, [] => true
  | seen, v :: rest =>
    if v = 0 ∨ 9 < v ∨ v ∈ seen then false
    else scan_unit (v :: seen) rest

/-- One sweep of the scalar fallback (validate_solution_fallback): the
source tests `num == 0 || seen[num as usize]` against `[bool; 10]`, so a
value above 9 indexes out of bounds and panics, modelled as none. -/
def scan_unit_fb : List Nat → List Nat → Option Bool
  | _, [] => some true
  | seen, v :: rest =>
    if v = 0 then some false
    else if 9 < v then none
    else if v ∈ seen then some false
    else scan_unit_fb (v :: seen) rest

/-- The nine cells of row r, in the source's column order. -/
def row_positions (r : Nat) : List (Nat × Nat) :=
  (List.range 9).map fun c => (r, c)

/-- The nine cells of column c, in the source's row order. -/
def col_positions (c : Nat) : List (Nat × Nat) :=
  (List.range 9).map fun r => (r, c)

/-- The nine cells of box k (k = box_row * 3 + box_col), in the source's
i, j order. -/
def box_positions (k : Nat) : List (Nat × Nat) :=
  (List.range 3).flatMap fun i => (List.range 3).map fun j =>
    (k / 3 * 3 + i, k % 3 * 3 + j)

/-- The 27 units in the order both validators traverse them:
all rows, then all columns, then all boxes. -/
def unit_positions : List (List (Nat × Nat)) :=
  ((List.range 9).map row_positions) ++ ((List.range 9).map col_positions) ++
    ((List.range 9).map box_positions)

/-- The values a board holds on a list of positions. -/
def unit_values (b : Board) (ps : List (Nat × Nat)) : List Nat :=
  ps.map fun p => b.get p.1 p.2

/-- The value lists of the 27 units of a board. -/
def units (b : Board) : List (List Nat) :=
  unit_positions.map (unit_values b)

/-- SimdValidator::validate_solution, vector path (the x86 and aarch64
bodies have identical value-level behaviour): every row, then every
column, then every box passes the sweep with the explicit `value > 9`
guard. -/
def validate_solution (b : Board) : Bool :=
  (units b).all fun u => scan_unit [] u

/-- Helper of validate_solution_fallback: scan the units in order,
stopping at the first failed unit (some false) or panic (none). -/
def fb_go : List (List Nat) → Option Bool
  | [] => some true
  | u :: rest =>
    match scan_unit_fb [] u with
    | some true => fb_go rest
    | some false => some false
    | none => none

/-- SimdValidator::validate_solution_fallback, with the out-of-bounds
panic on `seen[num]` for num > 9 modelled as none.  Units are scanned in
the source order (rows, then columns, then boxes). -/
def validate_solution_fallback (b : Board) : Option Bool :=
  fb_go (units b)

/-- The test `_mm_movemask_epi8 (...) != 0` applied to a vector of eight
16-bit lanes: the movemask collects only the most significant bit of
each of the 16 bytes, i.e. bit 7 and bit 15 of every lane. -/
def movemask_nonzero (lanes : List Nat) : Bool :=
  lanes.any fun w => w.testBit 7 || w.testBit 15

/-- The lane array SimdSolver::new (x86) builds for one unit: the k-th
nonzero value of the unit contributes bit (value - 1) OR-ed into lane
`min k 7` (`row_data[col.min(7)] |= 1 << (value - 1)`). -/
def x86_lanes (vals : List Nat) : List Nat :=
  (List.range 9).foldl
    (fun lanes k =>
      let v := vals.getD k 0
      if v ≠ 0 then
        lanes.set (min k 7) ((lanes.getD (min k 7) 0) ||| (1 <<< (v - 1)))
      else lanes)
    (List.replicate 8 0)

/-- SimdSolver on x86 / x86_64: three arrays of nine 8-lane vectors. -/
structure SimdSolverX86 where
  row_masks : List (List Nat)
  col_masks : List (List Nat)
  box_masks : List (List Nat)
deriving DecidableEq, Repr

/-- SimdSolver::new, x86 path. -/
def SimdSolverX86.new (b : Board) : SimdSolverX86 :=
  ⟨(List.range 9).map fun r => x86_lanes (unit_values b (row_positions r)),
   (List.range 9).map fun c => x86_lanes (unit_values b (col_positions c)),
   (List.range 9).map fun k => x86_lanes (unit_values b (box_positions k))⟩

/-- SimdSolver::is_valid_candidate, x86 path: AND the broadcast value
mask with the unit's lane vector and test it with _mm_movemask_epi8. -/
def SimdSolverX86.is_valid_candidate (s : SimdSolverX86) (row col value : Nat) : Bool :=
  let mask := 1 <<< (value - 1)
  if movemask_nonzero ((s.row_masks.getD row []).map (· &&& mask)) then false
  else if movemask_nonzero ((s.col_masks.getD col []).map (· &&& mask)) then false
  else if movemask_nonzero ((s.box_masks.getD (row / 3 * 3 + col / 3) []).map (· &&& mask)) then
    false
  else true

/-- The lane array SimdSolver::new (aarch64) builds for one unit: lanes
0..7 are assigned the bit of the unit's first eight values
(`row_data[col] = 1 << (value - 1)` for col in 0..8), then the ninth
value, when nonzero, is written into lane 7 with vsetq_lane_u16,
overwriting whatever the eighth value put there. -/
def a64_lanes (vals : List Nat) : List Nat :=
  let base := (List.range 8).foldl
    (fun lanes k =>
      let v := vals.getD k 0
      if v ≠ 0 then lanes.set k (1 <<< (v - 1)) else lanes)
    (List.replicate 8 0)
  let v8 := vals.getD 8 0
  if v8 ≠ 0 then base.set 7 (1 <<< (v8 - 1)) else base

/-- SimdSolver on aarch64. -/
structure SimdSolverA64 where
  row_masks : List (List Nat)
  col_masks : List (List Nat)
  box_masks : List (List Nat)
deriving DecidableEq, Repr

/-- SimdSolver::new, aarch64 path. -/
def SimdSolverA64.new (b : Board) : SimdSolverA64 :=
  ⟨(List.range 9).map fun r => a64_lanes (unit_values b (row_positions r)),
   (List.range 9).map fun c => a64_lanes (unit_values b (col_positions c)),
   (List.range 9).map fun k => a64_lanes (unit_values b (box_positions k))⟩

/-- SimdSolver::is_valid_candidate, aarch64 path: vmaxvq_u16 of the AND
is nonzero iff some lane intersects the broadcast value mask. -/
def SimdSolverA64.is_valid_candidate (s : SimdSolverA64) (row col value : Nat) : Bool :=
  if value = 0 then false
  else
    let mask := 1 <<< (value - 1)
    if (s.row_masks.getD row []).any (fun w => w &&& mask != 0) then false
    else if (s.col_masks.getD col []).any (fun w => w &&& mask != 0) then false
    else if (s.box_masks.getD (row / 3 * 3 + col / 3) []).any (fun w => w &&& mask != 0) then
      false
    else true

/-- SimdSolver scalar fallback: per-unit arrays of the placed values
(row_masks[row][col] = value and so on); the unit arrays are exactly the
unit value lists of the board. -/
structure SimdSolverScalar where
  row_masks : List (List Nat)
  col_masks : List (List Nat)
  box_masks : List (List Nat)
deriving DecidableEq, Repr

/-- SimdSolver::new, scalar fallback. -/
def SimdSolverScalar.new (b : Board) : SimdSolverScalar :=
  ⟨(List.range 9).map fun r => unit_values b (row_positions r),
   (List.range 9).map fun c => unit_values b (col_positions c),
   (List.range 9).map fun k => unit_values b (box_positions k)⟩

/-- SimdSolver::is_valid_candidate, scalar fallback: `contains`. -/
def SimdSolverScalar.is_valid_candidate (s : SimdSolverScalar) (row col value : Nat) : Bool :=
  if (s.row_masks.getD row []).contains value then false
  else if (s.col_masks.getD col []).contains value then false
  else if (s.box_masks.getD (row / 3 * 3 + col / 3) []).contains value then false
  else true

/-- src/lib.rs SudokuError. -/
inductive SudokuError where
  | ApiError : String → SudokuError
  | InvalidBoard : SudokuError
  | InvalidValue : Nat → Nat → Int → SudokuError
  | BenchmarkError : String → SudokuError
  | CacheTimeout : SudokuError
  | GeneratorTimeout : SudokuError
deriving DecidableEq, Repr

/-- src/lib.rs Grid (cell values as Nat). -/
structure Grid where
  value : List (List Nat)
  solution : List (List Nat)
  difficulty : String
deriving DecidableEq, Repr

/-- Solver::is_valid_placement: num absent from the row, the column and
the 3 x 3 box. -/
def is_valid_placement (b : Board) (row col num : Nat) : Bool :=
  ((List.range 9).all fun j => b.get row j != num) &&
  ((List.range 9).all fun i => b.get i col != num) &&
  ((List.range 3).all fun i => (List.range 3).all fun j =>
      b.get (row / 3 * 3 + i) (col / 3 * 3 + j) != num)

/-- CandidateSet::iter_candidates: the set digits 1..9 in ascending
order. -/
def iter_candidates (mask : Nat) : List Nat :=
  (List.range' 1 9).filter fun n => mask.testBit (n - 1)

/-- Solver::precompute_candidates: for each empty cell start from
CandidateSet::all() (0x1FF) and remove every digit rejected by
is_valid_placement (u16 bit clear modelled with a 16-bit complement);
filled cells keep CandidateSet::empty() = 0. -/
def precompute_candidates (b : Board) : List Nat :=
  (List.range 81).map fun idx =>
    let row := idx / 9
    let col := idx % 9
    if b.is_empty_cell row col then
      (List.range' 1 9).foldl
        (fun m n =>
          if !(is_valid_placement b row col n) then m &&& (65535 ^^^ (1 <<< (n - 1))) else m)
        511
    else 0

/-- src/solver.rs Solver (the optional SimdSolver field is represented
by the `valid` argument threaded through solve, see the header note). -/
structure Solver where
  board : Board
  solution : Board
  candidates : List Nat
  unique_solution : Bool
deriving DecidableEq, Repr

/-- Solver::new. -/
def Solver.new (g : Grid) : Solver :=
  let board := Board.new g.value
  { board := board
    solution := Board.new g.solution
    candidates := precompute_candidates board
    unique_solution := true }

/-- Solver::calculate_impact: sum over the other empty cells of the row,
the column and the box (box cells shared with the row or column are
counted twice, as in the source) of the popcount of the AND of the two
candidate masks. -/
def calculate_impact (b : Board) (cands : List Nat) (row col : Nat) : Nat :=
  let m := cands.getD (row * 9 + col) 0
  let rowI := (List.range 9).foldl
    (fun acc j =>
      if j ≠ col ∧ b.is_empty_cell row j then
        acc + count_ones (m &&& cands.getD (row * 9 + j) 0)
      else acc) 0
  let colI := (List.range 9).foldl
    (fun acc i =>
      if i ≠ row ∧ b.is_empty_cell i col then
        acc + count_ones (m &&& cands.getD (i * 9 + col) 0)
      else acc) 0
  let boxI := (List.range 3).foldl
    (fun acc i => (List.range 3).foldl
      (fun acc j =>
        let r := row / 3 * 3 + i
        let c := col / 3 * 3 + j
        if (r ≠ row ∨ c ≠ col) ∧ b.is_empty_cell r c then
          acc + count_ones (m &&& cands.getD (r * 9 + c) 0)
        else acc) acc) 0
  rowI + colI + boxI

/-- All 81 cells in the row-major order every scan of the source uses. -/
def all_cells : List (Nat × Nat) :=
  (List.range 9).flatMap fun r => (List.range 9).map fun c => (r, c)

/-- One step of the first pass of Solver::find_empty_cells, updating
(min_candidates, max_impact). -/
def pass1_step (s : Solver) (acc : Nat × Nat) (p : Nat × Nat) : Nat × Nat :=
  if s.board.is_empty_cell p.1 p.2 then
    let count := count_ones (s.candidates.getD (p.1 * 9 + p.2) 0)
    if count < acc.1 then
      (count, calculate_impact s.board s.candidates p.1 p.2)
    else if count = acc.1 then
      (acc.1, max acc.2 (calculate_impact s.board s.candidates p.1 p.2))
    else acc
  else acc

/-- Solver::find_empty_cells: first pass computes (min_candidates,
max_impact) from (10, 0); second pass keeps the empty cells with
count == min_candidates and impact >= max_impact; if that is empty, all
empty cells are returned. -/
def find_empty_cells (s : Solver) : List (Nat × Nat) :=
  let mm := all_cells.foldl (pass1_step s) (10, 0)
  let cells := all_cells.filter fun p =>
    decide (s.board.is_empty_cell p.1 p.2 ∧
      count_ones (s.candidates.getD (p.1 * 9 + p.2) 0) = mm.1 ∧
      mm.2 ≤ calculate_impact s.board s.candidates p.1 p.2)
  if cells.isEmpty then
    all_cells.filter fun p => s.board.is_empty_cell p.1 p.2
  else cells

/-- Solver::find_next_empty: first empty cell in row-major order. -/
def find_next_empty (b : Board) : Option (Nat × Nat) :=
  all_cells.find? fun p => b.is_empty_cell p.1 p.2

/-- The key closure of `sorted_candidates.sort_by_key` in Solver::solve:
it clones the board and places num on the clone, but then calls
self.calculate_impact(row, col), which reads only the solver's board and
candidates — the clone is unused. -/
def sort_key (s : Solver) (row col num : Nat) : Nat :=
  let _board_copy := s.board.set row col num
  calculate_impact s.board s.candidates row col

/-- Stable ascending insertion by key: x goes in front of the first
element whose key is not smaller. -/
def insert_by_key (key : Nat → Nat) (x : Nat) : List Nat → List Nat
  | [] => [x]
  | y :: ys => if key x ≤ key y then x :: y :: ys else y :: insert_by_key key x ys

/-- Stable ascending sort by key (Vec::sort_by_key is a stable sort;
any stable sort has the same observable result). -/
def sort_by_key (key : Nat → Nat) (l : List Nat) : List Nat :=
  l.foldr (insert_by_key key) []

/-- The sorted top-level candidate list of Solver::solve. -/
def sorted_candidates (s : Solver) (row col : Nat) : List Nat :=
  sort_by_key (sort_key s row col) (iter_candidates (s.candidates.getD (row * 9 + col) 0))

/-- Solver::try_solve_with_value: place the value, then depth-first over
the next empty cell (row-major), trying digits 1..9 filtered by the
branch's legality test `valid`; with no empty cell left, validate.  The
fuel argument only bounds the recursion depth (81 placements suffice);
solve passes 82. -/
def try_solve_with_value (valid : Board → Nat → Nat → Nat → Bool) :
    Nat → Board → Nat → Nat → Nat → Option Board
  | 0, _, _, _, _ => none
  | fuel + 1, board, row, col, value =>
    let b := board.set row col value
    match find_next_empty b with
    | none => if validate_solution b then some b else none
    | some (nr, nc) =>
      (List.range' 1 9).findSome? fun num =>
        if valid b nr nc num then try_solve_with_value valid fuel b nr nc num else none

/-- Solver::solve under the sequential first-success schedule (see the
header note): no empty cells means validate-and-return; otherwise branch
on the first ranked cell, fail on an empty candidate set, and take the
first sorted candidate whose branch succeeds.  Every failure exit is
SudokuError::InvalidBoard, as in the source. -/
def solve (valid : Board → Nat → Nat → Nat → Bool) (s : Solver) :
    Except SudokuError (List (List Nat)) × Solver :=
  match find_empty_cells s with
  | [] =>
    if validate_solution s.board then (Except.ok s.board.to_vec, s)
    else (Except.error SudokuError.InvalidBoard, s)
  | (row, col) :: _ =>
    let cands := s.candidates.getD (row * 9 + col) 0
    if cands = 0 then (Except.error SudokuError.InvalidBoard, s)
    else
      match (sorted_candidates s row col).findSome?
          (fun num => try_solve_with_value valid 82 s.board row col num) with
      | some b =>
        (Except.ok b.to_vec, { s with board := b, unique_solution := b == s.solution })
      | none =>
        (Except.error SudokuError.InvalidBoard, { s with unique_solution := false })

/-- Solver::has_unique_solution. -/
def Solver.has_unique_solution (s : Solver) : Bool := s.unique_solution

/-- Solver::get_solution. -/
def Solver.get_solution (s : Solver) : List (List Nat) := s.board.to_vec

/-- Solver::get_original_solution. -/
def Solver.get_original_solution (s : Solver) : List (List Nat) := s.solution.to_vec

/-- Solver::verify_solution. -/
def Solver.verify_solution (s : Solver) : Bool := s.board == s.solution

/-- A unit value list holds the same nonzero digit at two places. -/
def has_dup : List Nat → Bool
  | [] => false
  | v :: rest => (v != 0 && rest.contains v) || has_dup rest

/-- The board's fixed (nonzero) digits contain a duplicate inside some
row, column or box. -/
def has_fixed_duplicate (b : Board) : Bool :=
  (units b).any has_dup

/-- A structurally well-formed grid matrix: 9 rows of 9 entries, every
entry a digit 0..9. -/
def WFMatrix (m : List (List Nat)) : Prop :=
  m.length = 9 ∧ ∀ row ∈ m, row.length = 9 ∧ ∀ v ∈ row, v ≤ 9

/-- The classic test solution matrix (src/solver.rs tests). -/
def classic_solution : List (List Nat) :=
  [[5,3,4,6,7,8,9,1,2],
   [6,7,2,1,9,5,3,4,8],
   [1,9,8,3,4,2,5,6,7],
   [8,5,9,7,6,1,4,2,3],
   [4,2,6,8,5,3,7,9,1],
   [7,1,3,9,2,4,8,5,6],
   [9,6,1,5,3,7,2,8,4],
   [2,8,7,4,1,9,6,3,5],
   [3,4,5,2,8,6,1,7,9]]

/-- The almost-complete test puzzle: the classic solution with cell
(0, 8) blanked (test_almost_complete_board). -/
def almost_value : List (List Nat) :=
  [[5,3,4,6,7,8,9,1,0],
   [6,7,2,1,9,5,3,4,8],
   [1,9,8,3,4,2,5,6,7],
   [8,5,9,7,6,1,4,2,3],
   [4,2,6,8,5,3,7,9,1],
   [7,1,3,9,2,4,8,5,6],
   [9,6,1,5,3,7,2,8,4],
   [2,8,7,4,1,9,6,3,5],
   [3,4,5,2,8,6,1,7,9]]

/-- Grid with one empty cell and the matching reference solution. -/
def demo_grid : Grid := ⟨almost_value, classic_solution, "Easy"⟩

/-- Solver built from demo_grid. -/
def demo_solver : Solver := Solver.new demo_grid

/-- A full, valid board paired with an all-zero reference solution. -/
def full_grid : Grid := ⟨classic_solution, List.replicate 9 (List.replicate 9 0), "Test"⟩

/-- A puzzle whose fixed digits conflict: two 5s in row 0
(test_invalid_board). -/
def dup_grid : Grid :=
  ⟨[[5,5,0,0,7,0,0,0,0],
    [6,0,0,1,9,5,0,0,0],
    [0,9,8,0,0,0,0,6,0],
    [8,0,0,0,6,0,0,0,3],
    [4,0,0,8,0,3,0,0,1],
    [7,0,0,0,2,0,0,0,6],
    [0,6,0,0,0,0,2,8,0],
    [0,0,0,4,1,9,0,0,5],
    [0,0,0,0,8,0,0,7,9]],
   List.replicate 9 (List.replicate 9 0), "Medium"⟩

/-- A well-formed puzzle on which solve fails fast: the classic solution
with (0, 8) blanked and (1, 8) changed from 8 to 2, so cell (0, 8) has
an empty candidate set (row 0 forbids everything except 2, and 2 also
sits in column 8). -/
def stuck_grid : Grid :=
  ⟨[[5,3,4,6,7,8,9,1,0],
    [6,7,2,1,9,5,3,4,2],
    [1,9,8,3,4,2,5,6,7],
    [8,5,9,7,6,1,4,2,3],
    [4,2,6,8,5,3,7,9,1],
    [7,1,3,9,2,4,8,5,6],
    [9,6,1,5,3,7,2,8,4],
    [2,8,7,4,1,9,6,3,5],
    [3,4,5,2,8,6,1,7,9]],
   classic_solution, "Test"⟩

/-- Board with cell (0, 0) = 10 and all other cells 0: an out-of-range
value that the fallback validator's seen array cannot index. -/
def board_ten : Board := ⟨10 :: List.replicate 80 0⟩

/-- The all-zero board. -/
def board_zero : Board := ⟨List.replicate 81 0⟩

/-- Board with a single 1 at (0, 0). -/
def board_c4a : Board := ⟨1 :: List.replicate 80 0⟩

/-- Board with 1 at (0, 7) and 2 at (0, 8), the rest empty. -/
def board_c4b : Board :=
  ⟨[0,0,0,0,0,0,0,1,2] ++ List.replicate 72 0⟩

/-! ### Lemmas about the validators -/

theorem scan_unit_true {u seen : List Nat} (h : scan_unit seen u = true) :
    u.Nodup ∧ ∀ v ∈ u, v ∉ seen ∧ 1 ≤ v ∧ v ≤ 9 := by
  induction u generalizing seen with
  | nil => simp
  | cons v rest ih =>
    rw [scan_unit] at h
    split at h
    · exact absurd h (by simp)
    · rename_i hcond
      push_neg at hcond
      obtain ⟨h0, h9, hseen⟩ := hcond
      obtain ⟨hnd, hrest⟩ := ih h
      refine ⟨?_, ?_⟩
      · refine List.nodup_cons.mpr ⟨?_, hnd⟩
        intro hv
        exact ((hrest v hv).1 (List.mem_cons_self v seen)).elim
      · intro w hw
        rcases List.mem_cons.mp hw with rfl | hw'
        · exact ⟨hseen, Nat.one_le_iff_ne_zero.mpr h0, h9⟩
        · obtain ⟨hws, hw1, hw9⟩ := hrest w hw'
          exact ⟨fun hws' => hws (List.mem_cons_of_mem v hws'), hw1, hw9⟩

theorem scan_unit_fb_of_scan_unit {u seen : List Nat} (h : scan_unit seen u = true) :
    scan_unit_fb seen u = some true := by
  induction u generalizing seen with
  | nil => rfl
  | cons v rest ih =>
    rw [scan_unit] at h
    split at h
    · exact absurd h (by simp)
    · rename_i hcond
      push_neg at hcond
      obtain ⟨h0, h9, hseen⟩ := hcond
      rw [scan_unit_fb, if_neg h0, if_neg (by omega), if_neg hseen]
      exact ih h

theorem scan_unit_false_of_has_dup {u : List Nat} (hd : has_dup u = true)
    (seen : List Nat) : scan_unit seen u = false := by
  induction u generalizing seen with
  | nil => simp [has_dup] at hd
  | cons v rest ih =>
    rw [has_dup] at hd
    rw [scan_unit]
    split
    · rfl
    · rename_i hcond
      push_neg at hcond
      rcases Bool.or_eq_true _ _ |>.mp hd with hhead | htail
      · have hv : v ∈ rest := by
          have := (Bool.and_eq_true _ _).mp hhead
          simpa using this.2
        cases hsc : scan_unit (v :: seen) rest with
        | false => rfl
        | true =>
          obtain ⟨_, hall⟩ := scan_unit_true hsc
          exact absurd (List.mem_cons_self v seen) ((hall v hv).1)
      · exact ih htail (v :: seen)

theorem fb_go_of_all {us : List (List Nat)}
    (h : ∀ u ∈ us, scan_unit [] u = true) : fb_go us = some true := by
  induction us with
  | nil => rfl
  | cons u rest ih =>
    rw [fb_go, scan_unit_fb_of_scan_unit (h u (List.mem_cons_self u rest))]
    exact ih fun w hw => h w (List.mem_cons_of_mem u hw)

theorem validate_solution_fallback_of_validate {b : Board}
    (h : validate_solution b = true) : validate_solution_fallback b = some true :=
  fb_go_of_all fun u hu => List.all_eq_true.mp h u hu

theorem validate_units {b : Board} (h : validate_solution b = true) :
    ∀ u ∈ units b, u.Nodup ∧ ∀ v ∈ u, 1 ≤ v ∧ v ≤ 9 := by
  intro u hu
  have hs := List.all_eq_true.mp h u hu
  obtain ⟨hnd, hall⟩ := scan_unit_true hs
  exact ⟨hnd, fun v hv => ⟨(hall v hv).2.1, (hall v hv).2.2⟩⟩

theorem validate_false_of_dup {b : Board} (h : has_fixed_duplicate b = true) :
    validate_solution b = false := by
  obtain ⟨u, hu, hd⟩ := List.any_eq_true.mp h
  cases hv : validate_solution b with
  | false => rfl
  | true =>
    have := List.all_eq_true.mp hv u hu
    rw [scan_unit_false_of_has_dup hd []] at this
    exact absurd this (by simp)

theorem has_dup_transport {b b' : Board} {ps : List (Nat × Nat)}
    (h : ∀ p ∈ ps, b.get p.1 p.2 ≠ 0 → b'.get p.1 p.2 = b.get p.1 p.2)
    (hd : has_dup (unit_values b ps) = true) :
    has_dup (unit_values b' ps) = true := by
  induction ps with
  | nil => simp [unit_values, has_dup] at hd
  | cons p rest ih =>
    rw [unit_values, List.map_cons, has_dup] at hd ⊢
    rcases Bool.or_eq_true _ _ |>.mp hd with hhead | htail
    · have hparts := (Bool.and_eq_true _ _).mp hhead
      have hv0 : b.get p.1 p.2 ≠ 0 := by simpa using hparts.1
      have hvmem : b.get p.1 p.2 ∈ (unit_values b rest) := by
        simpa [unit_values] using hparts.2
      obtain ⟨q, hq, hqv⟩ := List.mem_map.mp hvmem
      apply Bool.or_eq_true _ _ |>.mpr
      left
      apply Bool.and_eq_true _ _ |>.mpr
      have hp' : b'.get p.1 p.2 = b.get p.1 p.2 :=
        h p (List.mem_cons_self p rest) hv0
      constructor
      · simpa [hp'] using hv0
      · have hq0 : b.get q.1 q.2 ≠ 0 := by rw [hqv]; exact hv0
        have hq' : b'.get q.1 q.2 = b.get q.1 q.2 :=
          h q (List.mem_cons_of_mem p hq) hq0
        have : b'.get p.1 p.2 ∈ unit_values b' rest := by
          rw [unit_values]
          exact List.mem_map.mpr ⟨q, hq, by rw [hq', hqv, hp']⟩
        simpa [unit_values] using this
    · exact Bool.or_eq_true _ _ |>.mpr (Or.inr (ih (fun q hq => h q (List.mem_cons_of_mem p hq)) htail))

theorem unit_positions_bounds :
    ∀ ps ∈ unit_positions, ∀ p ∈ ps, p.1 < 9 ∧ p.2 < 9 := by decide

theorem has_fixed_duplicate_transport {b b' : Board}
    (h : ∀ r c, r < 9 → c < 9 → b.get r c ≠ 0 → b'.get r c = b.get r c)
    (hd : has_fixed_duplicate b = true) : has_fixed_duplicate b' = true := by
  obtain ⟨u, hu, hdu⟩ := List.any_eq_true.mp hd
  obtain ⟨ps, hps, hpsu⟩ := List.mem_map.mp hu
  apply List.any_eq_true.mpr
  refine ⟨unit_values b' ps, List.mem_map.mpr ⟨ps, hps, rfl⟩, ?_⟩
  apply has_dup_transport _ (hpsu ▸ hdu)
  intro p hp hp0
  obtain ⟨h1, h2⟩ := unit_positions_bounds ps hps p hp
  exact h p.1 p.2 h1 h2 hp0

/-! ### Lemmas about the board and the search -/

theorem cell_index_inj {i j r c : Nat} (_hi : i < 9) (hj : j < 9) (_hr : r < 9) (hc : c < 9)
    (h : i * 9 + j = r * 9 + c) : i = r ∧ j = c := by omega

theorem get_set_ne {b : Board} {r c i j v : Nat} (h : i * 9 + j ≠ r * 9 + c) :
    (b.set r c v).get i j = b.get i j := by
  simp [Board.get, Board.set, List.getD_eq_getElem?_getD, List.getElem?_set_ne (Ne.symm h)]

theorem get_set_preserves {b : Board} {row col v : Nat} (hr : row < 9) (hc : col < 9)
    (h0 : b.get row col = 0) :
    ∀ i j, i < 9 → j < 9 → b.get i j ≠ 0 → (b.set row col v).get i j = b.get i j := by
  intro i j hi hj hne
  apply get_set_ne
  intro heq
  obtain ⟨rfl, rfl⟩ := cell_index_inj hi hj hr hc heq
  exact hne h0

theorem all_cells_bounds : ∀ p ∈ all_cells, p.1 < 9 ∧ p.2 < 9 := by decide

theorem find_next_empty_spec {b : Board} {p : Nat × Nat}
    (h : find_next_empty b = some p) : p.1 < 9 ∧ p.2 < 9 ∧ b.get p.1 p.2 = 0 := by
  have hm := List.mem_of_find?_eq_some h
  have hp := List.find?_some h
  obtain ⟨h1, h2⟩ := all_cells_bounds p hm
  refine ⟨h1, h2, ?_⟩
  simpa [Board.is_empty_cell] using hp

theorem try_solve_validates {valid : Board → Nat → Nat → Nat → Bool} :
    ∀ {fuel board row col value b},
      try_solve_with_value valid fuel board row col value = some b →
      validate_solution b = true := by
  intro fuel
  induction fuel with
  | zero =>
    intro board row col value b h
    exact absurd h (by simp [try_solve_with_value])
  | succ n ih =>
    intro board row col value b h
    simp only [try_solve_with_value] at h
    cases hfe : find_next_empty (board.set row col value) with
    | none =>
      rw [hfe] at h
      simp only [] at h
      split at h
      · cases h; assumption
      · exact absurd h (by simp)
    | some p =>
      rw [hfe] at h
      obtain ⟨nr, nc⟩ := p
      simp only [] at h
      obtain ⟨num, _, hnum⟩ := List.exists_of_findSome?_eq_some h
      split at hnum
      · exact ih hnum
      · exact absurd hnum (by simp)

theorem try_solve_preserves {valid : Board → Nat → Nat → Nat → Bool} :
    ∀ {fuel board row col value b},
      try_solve_with_value valid fuel board row col value = some b →
      row < 9 → col < 9 → board.get row col = 0 →
      ∀ i j, i < 9 → j < 9 → board.get i j ≠ 0 → b.get i j = board.get i j := by
  intro fuel
  induction fuel with
  | zero =>
    intro board row col value b h
    exact absurd h (by simp [try_solve_with_value])
  | succ n ih =>
    intro board row col value b h hr hc h0 i j hi hj hne
    have hstep := get_set_preserves (v := value) hr hc h0 i j hi hj hne
    have hne1 : (board.set row col value).get i j ≠ 0 := by rw [hstep]; exact hne
    simp only [try_solve_with_value] at h
    cases hfe : find_next_empty (board.set row col value) with
    | none =>
      rw [hfe] at h
      simp only [] at h
      split at h
      · cases h; rw [hstep]
      · exact absurd h (by simp)
    | some p =>
      rw [hfe] at h
      obtain ⟨nr, nc⟩ := p
      obtain ⟨hnr, hnc, hempty⟩ := find_next_empty_spec hfe
      simp only [] at h
      obtain ⟨num, _, hnum⟩ := List.exists_of_findSome?_eq_some h
      split at hnum
      · rw [ih hnum hnr hnc hempty i j hi hj hne1]
        exact hstep
      · exact absurd hnum (by simp)

theorem mem_find_empty_cells {s : Solver} {p : Nat × Nat}
    (h : p ∈ find_empty_cells s) : p.1 < 9 ∧ p.2 < 9 ∧ s.board.get p.1 p.2 = 0 := by
  simp only [find_empty_cells] at h
  split at h
  · obtain ⟨hmem, hp⟩ := List.mem_filter.mp h
    obtain ⟨h1, h2⟩ := all_cells_bounds p hmem
    exact ⟨h1, h2, by simpa [Board.is_empty_cell] using hp⟩
  · obtain ⟨hmem, hp⟩ := List.mem_filter.mp h
    obtain ⟨h1, h2⟩ := all_cells_bounds p hmem
    have := of_decide_eq_true hp
    exact ⟨h1, h2, by simpa [Board.is_empty_cell] using this.1⟩

theorem solve_nil {valid : Board → Nat → Nat → Nat → Bool} {s : Solver}
    (hE : find_empty_cells s = []) :
    solve valid s =
      if validate_solution s.board then (Except.ok s.board.to_vec, s)
      else (Except.error SudokuError.InvalidBoard, s) := by
  rw [solve, hE]

theorem solve_cons {valid : Board → Nat → Nat → Nat → Bool} {s : Solver}
    {row col : Nat} {rest : List (Nat × Nat)}
    (hE : find_empty_cells s = (row, col) :: rest) :
    solve valid s =
      if s.candidates.getD (row * 9 + col) 0 = 0 then
        (Except.error SudokuError.InvalidBoard, s)
      else
        match (sorted_candidates s row col).findSome?
            (fun num => try_solve_with_value valid 82 s.board row col num) with
        | some b =>
          (Except.ok b.to_vec, { s with board := b, unique_solution := b == s.solution })
        | none =>
          (Except.error SudokuError.InvalidBoard, { s with unique_solution := false }) := by
  rw [solve, hE]

/-! ### Lemmas about the heuristic cell selector -/

/-- The empty cells of the solver's board (the cells both passes of
find_empty_cells consider). -/
def empty_cells (s : Solver) : List (Nat × Nat) :=
  all_cells.filter fun p => s.board.is_empty_cell p.1 p.2

/-- Candidate count of a cell (CandidateSet::count_candidates of its
precomputed mask). -/
def cell_count (s : Solver) (p : Nat × Nat) : Nat :=
  count_ones (s.candidates.getD (p.1 * 9 + p.2) 0)

/-- Impact of a cell (Solver::calculate_impact). -/
def cell_impact (s : Solver) (p : Nat × Nat) : Nat :=
  calculate_impact s.board s.candidates p.1 p.2

theorem mem_all_cells {p : Nat × Nat} : p ∈ all_cells ↔ p.1 < 9 ∧ p.2 < 9 := by
  constructor
  · exact fun h => all_cells_bounds p h
  · intro h
    simp only [all_cells, List.mem_flatMap, List.mem_map, List.mem_range]
    exact ⟨p.1, h.1, p.2, h.2, by cases p; rfl⟩

theorem count_ones_lt_ten {m : Nat} (h : m < 512) : count_ones m < 10 := by
  have hsplit : List.range 16 = List.range 9 ++ (List.range 7).map (fun x => 9 + x) :=
    List.range_add 9 7
  have hnil : (List.filter (fun i => m.testBit i) ((List.range 7).map (fun x => 9 + x))) = [] := by
    apply List.filter_eq_nil_iff.mpr
    intro a ha
    obtain ⟨k, _, rfl⟩ := List.mem_map.mp ha
    have : m.testBit (9 + k) = false := by
      apply Nat.testBit_lt_two_pow
      calc m < 512 := h
        _ = 2 ^ 9 := rfl
        _ ≤ 2 ^ (9 + k) := Nat.pow_le_pow_right (by omega) (by omega)
    simp [this]
  have : count_ones m = (List.filter (fun i => m.testBit i) (List.range 9)).length := by
    rw [count_ones, hsplit, List.filter_append, hnil, List.append_nil]
  rw [this]
  calc (List.filter (fun i => m.testBit i) (List.range 9)).length
      ≤ (List.range 9).length := List.length_filter_le _ _
    _ < 10 := by simp

theorem getD_lt_512 {l : List Nat} (h : ∀ m ∈ l, m < 512) (i : Nat) : l.getD i 0 < 512 := by
  rw [List.getD_eq_getElem?_getD]
  cases hx : l[i]? with
  | none => simp
  | some x =>
    have hxm : x ∈ l := by
      have hlt : i < l.length := by
        by_contra hcon
        rw [List.getElem?_eq_none (by omega)] at hx
        exact absurd hx (by simp)
      have := List.getElem?_eq_getElem hlt
      rw [this] at hx
      cases hx
      exact List.getElem_mem hlt
    simpa using h x hxm

/-- Invariant of the first pass of find_empty_cells, generalised over
the scan list and the accumulator. -/
theorem pass1_invariant (s : Solver) :
    ∀ (L : List (Nat × Nat)) (mc₀ mi₀ : Nat),
      (L.foldl (pass1_step s) (mc₀, mi₀)).1 ≤ mc₀ ∧
      (∀ q ∈ L, s.board.is_empty_cell q.1 q.2 = true →
        (L.foldl (pass1_step s) (mc₀, mi₀)).1 ≤ cell_count s q) ∧
      ((L.foldl (pass1_step s) (mc₀, mi₀)).1 = mc₀ ∨
        ∃ q ∈ L, s.board.is_empty_cell q.1 q.2 = true ∧
          cell_count s q = (L.foldl (pass1_step s) (mc₀, mi₀)).1) ∧
      (∀ q ∈ L, s.board.is_empty_cell q.1 q.2 = true →
        cell_count s q = (L.foldl (pass1_step s) (mc₀, mi₀)).1 →
        cell_impact s q ≤ (L.foldl (pass1_step s) (mc₀, mi₀)).2) ∧
      ((L.foldl (pass1_step s) (mc₀, mi₀)).1 = mc₀ →
        mi₀ ≤ (L.foldl (pass1_step s) (mc₀, mi₀)).2) ∧
      (((L.foldl (pass1_step s) (mc₀, mi₀)).1 = mc₀ ∧
          (L.foldl (pass1_step s) (mc₀, mi₀)).2 = mi₀) ∨
        ∃ q ∈ L, s.board.is_empty_cell q.1 q.2 = true ∧
          cell_count s q = (L.foldl (pass1_step s) (mc₀, mi₀)).1 ∧
          cell_impact s q = (L.foldl (pass1_step s) (mc₀, mi₀)).2) := by
  intro L
  induction L with
  | nil =>
    intro mc₀ mi₀
    refine ⟨Nat.le_refl _, ?_, Or.inl rfl, ?_, fun _ => Nat.le_refl _, Or.inl ⟨rfl, rfl⟩⟩
    · intro q hq; exact absurd hq (by simp)
    · intro q hq; exact absurd hq (by simp)
  | cons p L' ih =>
    intro mc₀ mi₀
    rw [List.foldl_cons]
    by_cases hemp : s.board.is_empty_cell p.1 p.2 = true
    · have hstep : pass1_step s (mc₀, mi₀) p =
          if cell_count s p < mc₀ then (cell_count s p, cell_impact s p)
          else if cell_count s p = mc₀ then (mc₀, max mi₀ (cell_impact s p))
          else (mc₀, mi₀) := by
        simp [pass1_step, hemp, cell_count, cell_impact]
      rcases Nat.lt_trichotomy (cell_count s p) mc₀ with hlt | heq | hgt
      · rw [hstep, if_pos hlt]
        obtain ⟨i1, i2, i3, i4, i5, i6⟩ := ih (cell_count s p) (cell_impact s p)
        refine ⟨Nat.le_trans i1 (Nat.le_of_lt hlt), ?_, ?_, ?_, ?_, ?_⟩
        · intro q hq hqe
          rcases List.mem_cons.mp hq with rfl | hq'
          · exact i1
          · exact i2 q hq' hqe
        · rcases i3 with h3 | ⟨q, hq, hqe, hqc⟩
          · exact Or.inr ⟨p, List.mem_cons_self p L', hemp, h3.symm⟩
          · exact Or.inr ⟨q, List.mem_cons_of_mem p hq, hqe, hqc⟩
        · intro q hq hqe hqc
          rcases List.mem_cons.mp hq with rfl | hq'
          · exact i5 hqc.symm
          · exact i4 q hq' hqe hqc
        · intro hfin
          have := i1
          omega
        · rcases i6 with ⟨h61, h62⟩ | ⟨q, hq, hqe, hqc, hqi⟩
          · exact Or.inr ⟨p, List.mem_cons_self p L', hemp, h61.symm, h62.symm⟩
          · exact Or.inr ⟨q, List.mem_cons_of_mem p hq, hqe, hqc, hqi⟩
      · rw [hstep, if_neg (by omega), if_pos heq]
        obtain ⟨i1, i2, i3, i4, i5, i6⟩ := ih mc₀ (max mi₀ (cell_impact s p))
        refine ⟨i1, ?_, ?_, ?_, ?_, ?_⟩
        · intro q hq hqe
          rcases List.mem_cons.mp hq with rfl | hq'
          · omega
          · exact i2 q hq' hqe
        · rcases i3 with h3 | ⟨q, hq, hqe, hqc⟩
          · exact Or.inl h3
          · exact Or.inr ⟨q, List.mem_cons_of_mem p hq, hqe, hqc⟩
        · intro q hq hqe hqc
          rcases List.mem_cons.mp hq with rfl | hq'
          · have h5 := i5 (by omega)
            exact Nat.le_trans (Nat.le_max_right mi₀ (cell_impact s q)) h5
          · exact i4 q hq' hqe hqc
        · intro hfin
          exact Nat.le_trans (Nat.le_max_left _ _) (i5 hfin)
        · rcases i6 with ⟨h61, h62⟩ | ⟨q, hq, hqe, hqc, hqi⟩
          · rcases Nat.le_total mi₀ (cell_impact s p) with hle | hle
            · refine Or.inr ⟨p, List.mem_cons_self p L', hemp, by omega, ?_⟩
              rw [h62, Nat.max_eq_right hle]
            · exact Or.inl ⟨h61, by rw [h62, Nat.max_eq_left hle]⟩
          · exact Or.inr ⟨q, List.mem_cons_of_mem p hq, hqe, hqc, hqi⟩
      · rw [hstep, if_neg (by omega), if_neg (by omega)]
        obtain ⟨i1, i2, i3, i4, i5, i6⟩ := ih mc₀ mi₀
        refine ⟨i1, ?_, ?_, ?_, i5, ?_⟩
        · intro q hq hqe
          rcases List.mem_cons.mp hq with rfl | hq'
          · omega
          · exact i2 q hq' hqe
        · rcases i3 with h3 | ⟨q, hq, hqe, hqc⟩
          · exact Or.inl h3
          · exact Or.inr ⟨q, List.mem_cons_of_mem p hq, hqe, hqc⟩
        · intro q hq hqe hqc
          rcases List.mem_cons.mp hq with rfl | hq'
          · omega
          · exact i4 q hq' hqe hqc
        · rcases i6 with h6 | ⟨q, hq, hqe, hqc, hqi⟩
          · exact Or.inl h6
          · exact Or.inr ⟨q, List.mem_cons_of_mem p hq, hqe, hqc, hqi⟩
    · have hstep : pass1_step s (mc₀, mi₀) p = (mc₀, mi₀) := by
        simp [pass1_step, hemp]
      rw [hstep]
      obtain ⟨i1, i2, i3, i4, i5, i6⟩ := ih mc₀ mi₀
      refine ⟨i1, ?_, ?_, ?_, i5, ?_⟩
      · intro q hq hqe
        rcases List.mem_cons.mp hq with rfl | hq'
        · exact absurd hqe hemp
        · exact i2 q hq' hqe
      · rcases i3 with h3 | ⟨q, hq, hqe, hqc⟩
        · exact Or.inl h3
        · exact Or.inr ⟨q, List.mem_cons_of_mem p hq, hqe, hqc⟩
      · intro q hq hqe hqc
        rcases List.mem_cons.mp hq with rfl | hq'
        · exact absurd hqe hemp
        · exact i4 q hq' hqe hqc
      · rcases i6 with h6 | ⟨q, hq, hqe, hqc, hqi⟩
        · exact Or.inl h6
        · exact Or.inr ⟨q, List.mem_cons_of_mem p hq, hqe, hqc, hqi⟩

/-- What find_empty_cells returns when an empty cell exists: a nonempty
list whose first element is an empty cell of globally minimal candidate
count and, among the cells achieving that minimum, maximal impact. -/
theorem find_empty_cells_spec (s : Solver)
    (hwf : ∀ m ∈ s.candidates, m < 512) (hne : empty_cells s ≠ []) :
    ∃ p rest, find_empty_cells s = p :: rest ∧ p ∈ empty_cells s ∧
      (∀ q ∈ empty_cells s, cell_count s p ≤ cell_count s q) ∧
      (∀ q ∈ empty_cells s, cell_count s q = cell_count s p →
        cell_impact s q ≤ cell_impact s p) := by
  obtain ⟨i1, i2, i3, i4, i5, i6⟩ := pass1_invariant s all_cells 10 0
  obtain ⟨q₀, hq₀⟩ := List.exists_mem_of_ne_nil _ hne
  obtain ⟨hq₀m, hq₀e⟩ := List.mem_filter.mp hq₀
  have hq₀c : cell_count s q₀ < 10 :=
    count_ones_lt_ten (getD_lt_512 hwf _)
  have hmm1 : (all_cells.foldl (pass1_step s) (10, 0)).1 < 10 :=
    Nat.lt_of_le_of_lt (i2 q₀ hq₀m hq₀e) hq₀c
  have hreal : ∃ q ∈ all_cells, s.board.is_empty_cell q.1 q.2 = true ∧
      cell_count s q = (all_cells.foldl (pass1_step s) (10, 0)).1 ∧
      cell_impact s q = (all_cells.foldl (pass1_step s) (10, 0)).2 := by
    rcases i6 with ⟨h61, _⟩ | h6
    · omega
    · exact h6
  obtain ⟨qs, hqsm, hqse, hqsc, hqsi⟩ := hreal
  have hqscells : qs ∈ all_cells.filter fun p =>
      decide (s.board.is_empty_cell p.1 p.2 ∧
        count_ones (s.candidates.getD (p.1 * 9 + p.2) 0) =
          (all_cells.foldl (pass1_step s) (10, 0)).1 ∧
        (all_cells.foldl (pass1_step s) (10, 0)).2 ≤
          calculate_impact s.board s.candidates p.1 p.2) := by
    apply List.mem_filter.mpr
    refine ⟨hqsm, decide_eq_true ?_⟩
    exact ⟨hqse, hqsc, Nat.le_of_eq hqsi.symm⟩
  have hcellsne : (all_cells.filter fun p =>
      decide (s.board.is_empty_cell p.1 p.2 ∧
        count_ones (s.candidates.getD (p.1 * 9 + p.2) 0) =
          (all_cells.foldl (pass1_step s) (10, 0)).1 ∧
        (all_cells.foldl (pass1_step s) (10, 0)).2 ≤
          calculate_impact s.board s.candidates p.1 p.2)) ≠ [] := by
    intro hnil
    rw [hnil] at hqscells
    exact absurd hqscells (by simp)
  obtain ⟨p, rest, hcons⟩ := List.exists_cons_of_ne_nil hcellsne
  have hfec : find_empty_cells s = p :: rest := by
    simp only [find_empty_cells]
    rw [hcons]
    simp
  have hpmem := hcons ▸ List.mem_cons_self p rest
  obtain ⟨hpm, hpd⟩ := List.mem_filter.mp hpmem
  obtain ⟨hpe, hpc, hpi⟩ := of_decide_eq_true hpd
  have hpimax : cell_impact s p ≤ (all_cells.foldl (pass1_step s) (10, 0)).2 :=
    i4 p hpm hpe hpc
  have hpieq : cell_impact s p = (all_cells.foldl (pass1_step s) (10, 0)).2 :=
    Nat.le_antisymm hpimax hpi
  refine ⟨p, rest, hfec, List.mem_filter.mpr ⟨hpm, hpe⟩, ?_, ?_⟩
  · intro q hq
    obtain ⟨hqm, hqe⟩ := List.mem_filter.mp hq
    calc cell_count s p = (all_cells.foldl (pass1_step s) (10, 0)).1 := hpc
      _ ≤ cell_count s q := i2 q hqm hqe
  · intro q hq hqc
    obtain ⟨hqm, hqe⟩ := List.mem_filter.mp hq
    calc cell_impact s q
        ≤ (all_cells.foldl (pass1_step s) (10, 0)).2 := i4 q hqm hqe (hqc.trans hpc)
      _ = cell_impact s p := hpieq.symm

/-! ### Lemmas about the candidate sort and Board round-trips -/

theorem sort_key_const (s : Solver) (row col n₁ n₂ : Nat) :
    sort_key s row col n₁ = sort_key s row col n₂ := rfl

theorem insert_by_key_const {key : Nat → Nat} (hconst : ∀ a b, key a = key b)
    (x : Nat) (l : List Nat) : insert_by_key key x l = x :: l := by
  cases l with
  | nil => rfl
  | cons y ys => rw [insert_by_key, if_pos (Nat.le_of_eq (hconst x y))]

theorem sort_by_key_const {key : Nat → Nat} (hconst : ∀ a b, key a = key b) :
    ∀ l, sort_by_key key l = l := by
  intro l
  induction l with
  | nil => rfl
  | cons x xs ih =>
    rw [sort_by_key, List.foldr_cons]
    rw [show xs.foldr (insert_by_key key) [] = sort_by_key key xs from rfl, ih]
    exact insert_by_key_const hconst x xs

theorem sorted_candidates_eq (s : Solver) (row col : Nat) :
    sorted_candidates s row col =
      iter_candidates (s.candidates.getD (row * 9 + col) 0) :=
  sort_by_key_const (fun a b => sort_key_const s row col a b) _

theorem map_range_getD {α : Type} (d : α) (l : List α) (h : l.length = 9) :
    (List.range 9).map (fun i => l.getD i d) = l := by
  apply List.ext_getElem
  · simp [h]
  · intro n h1 h2
    simp only [List.getElem_map, List.getElem_range, List.getD_eq_getElem?_getD]
    rw [List.getElem?_eq_getElem h2]
    rfl

theorem get_new {m : List (List Nat)} {i j : Nat} (hi : i < 9) (hj : j < 9) :
    (Board.new m).get i j = ((m.getD i []).getD j 0) % 256 := by
  rw [Board.new, Board.get]
  simp only [List.getD_eq_getElem?_getD]
  rw [List.getElem?_map, List.getElem?_range (show i * 9 + j < 81 by omega)]
  simp only [Option.map_some', Option.getD_some]
  rw [show (i * 9 + j) / 9 = i by omega, show (i * 9 + j) % 9 = j by omega]

theorem to_vec_new {m : List (List Nat)} (h : WFMatrix m) :
    (Board.new m).to_vec = m := by
  obtain ⟨hlen, hrows⟩ := h
  rw [Board.to_vec]
  have houter : ∀ i ∈ List.range 9,
      ((List.range 9).map fun j => (Board.new m).get i j) = m.getD i [] := by
    intro i hi
    have hi9 : i < 9 := List.mem_range.mp hi
    have hrowmem : m.getD i [] ∈ m := by
      rw [List.getD_eq_getElem?_getD,
        List.getElem?_eq_getElem (show i < m.length by omega), Option.getD_some]
      exact List.getElem_mem _
    obtain ⟨hrl, hrv⟩ := hrows _ hrowmem
    have hcell : ∀ j ∈ List.range 9,
        (Board.new m).get i j = (m.getD i []).getD j 0 := by
      intro j hj
      have hj9 : j < 9 := List.mem_range.mp hj
      rw [get_new hi9 hj9]
      have hval : (m.getD i []).getD j 0 ≤ 9 := by
        rw [List.getD_eq_getElem?_getD,
          List.getElem?_eq_getElem (show j < (m.getD i []).length by omega)]
        exact hrv _ (List.getElem_mem _)
      exact Nat.mod_eq_of_lt (by omega)
    rw [List.map_congr_left hcell, map_range_getD 0 _ hrl]
  rw [List.map_congr_left houter]
  exact map_range_getD [] m hlen

/-! ### Case characterisations of solve -/

theorem solve_cons_zero {valid : Board → Nat → Nat → Nat → Bool} {s : Solver}
    {row col : Nat} {rest : List (Nat × Nat)}
    (hE : find_empty_cells s = (row, col) :: rest)
    (hc : s.candidates.getD (row * 9 + col) 0 = 0) :
    solve valid s = (Except.error SudokuError.InvalidBoard, s) := by
  rw [solve_cons hE, if_pos hc]

theorem solve_cons_some {valid : Board → Nat → Nat → Nat → Bool} {s : Solver}
    {row col : Nat} {rest : List (Nat × Nat)} {b : Board}
    (hE : find_empty_cells s = (row, col) :: rest)
    (hc : s.candidates.getD (row * 9 + col) 0 ≠ 0)
    (hfs : (sorted_candidates s row col).findSome?
        (fun num => try_solve_with_value valid 82 s.board row col num) = some b) :
    solve valid s =
      (Except.ok b.to_vec, { s with board := b, unique_solution := b == s.solution }) := by
  rw [solve_cons hE, if_neg hc, hfs]

theorem solve_cons_none {valid : Board → Nat → Nat → Nat → Bool} {s : Solver}
    {row col : Nat} {rest : List (Nat × Nat)}
    (hE : find_empty_cells s = (row, col) :: rest)
    (hc : s.candidates.getD (row * 9 + col) 0 ≠ 0)
    (hfs : (sorted_candidates s row col).findSome?
        (fun num => try_solve_with_value valid 82 s.board row col num) = none) :
    solve valid s =
      (Except.error SudokuError.InvalidBoard, { s with unique_solution := false }) := by
  rw [solve_cons hE, if_neg hc, hfs]

/-! ### The claims -/

/-- Claim C1: whenever Solver::solve returns Ok(S), the accepted board
passes SimdValidator::validate_solution on the vector path and on the
scalar fallback, and every row, column and 3 x 3 box of it holds
pairwise distinct digits of 1..9 (for a 9-cell unit that is exactly
"each digit 1..9 exactly once"); S is that board as a matrix.  This
holds for every branch legality test `valid`, hence on every
architecture configuration. -/
theorem claim_C1 (valid : Board → Nat → Nat → Nat → Bool) (s : Solver)
    (v : List (List Nat)) (h : (solve valid s).1 = Except.ok v) :
    validate_solution ((solve valid s).2).board = true ∧
    validate_solution_fallback ((solve valid s).2).board = some true ∧
    (∀ u ∈ units ((solve valid s).2).board, u.Nodup ∧ ∀ x ∈ u, 1 ≤ x ∧ x ≤ 9) ∧
    v = ((solve valid s).2).board.to_vec := by
  cases hE : find_empty_cells s with
  | nil =>
    by_cases hval : validate_solution s.board = true
    · rw [solve_nil hE, if_pos hval] at h ⊢
      simp only [] at h
      refine ⟨hval, validate_solution_fallback_of_validate hval, validate_units hval, ?_⟩
      cases h
      rfl
    · rw [solve_nil hE, if_neg hval] at h
      exact absurd h (by simp)
  | cons p rest =>
    obtain ⟨row, col⟩ := p
    by_cases hc0 : s.candidates.getD (row * 9 + col) 0 = 0
    · rw [solve_cons_zero hE hc0] at h
      exact absurd h (by simp)
    · cases hfs : (sorted_candidates s row col).findSome?
          (fun num => try_solve_with_value valid 82 s.board row col num) with
      | none =>
        rw [solve_cons_none hE hc0 hfs] at h
        exact absurd h (by simp)
      | some b =>
        rw [solve_cons_some hE hc0 hfs] at h ⊢
        simp only [] at h
        obtain ⟨num, _, hnum⟩ := List.exists_of_findSome?_eq_some hfs
        have hval : validate_solution b = true := try_solve_validates hnum
        refine ⟨hval, validate_solution_fallback_of_validate hval, validate_units hval, ?_⟩
        cases h
        rfl

/-- Witness for C1: the almost-complete demo puzzle solves to the
classic solution, which both validators accept. -/
theorem claim_C1_witness :
    validate_solution ((solve is_valid_placement demo_solver).2).board = true ∧
    validate_solution_fallback ((solve is_valid_placement demo_solver).2).board = some true ∧
    (∀ u ∈ units ((solve is_valid_placement demo_solver).2).board,
      u.Nodup ∧ ∀ x ∈ u, 1 ≤ x ∧ x ≤ 9) ∧
    classic_solution = ((solve is_valid_placement demo_solver).2).board.to_vec :=
  claim_C1 is_valid_placement demo_solver classic_solution (by rfl)

/-- Claim C2: a puzzle whose fixed (nonzero) digits contain a duplicate
inside some row, column or box makes solve fail, and the error is
SudokuError::InvalidBoard; no completion is returned.  Holds for every
branch legality test `valid`. -/
theorem claim_C2 (valid : Board → Nat → Nat → Nat → Bool) (g : Grid)
    (h : has_fixed_duplicate (Board.new g.value) = true) :
    (solve valid (Solver.new g)).1 = Except.error SudokuError.InvalidBoard := by
  have hboard : (Solver.new g).board = Board.new g.value := rfl
  have hdup : has_fixed_duplicate (Solver.new g).board = true := by rw [hboard]; exact h
  cases hE : find_empty_cells (Solver.new g) with
  | nil =>
    rw [solve_nil hE, if_neg (by rw [validate_false_of_dup hdup]; exact Bool.false_ne_true)]
  | cons p rest =>
    obtain ⟨row, col⟩ := p
    by_cases hc0 : (Solver.new g).candidates.getD (row * 9 + col) 0 = 0
    · rw [solve_cons_zero hE hc0]
    · cases hfs : (sorted_candidates (Solver.new g) row col).findSome?
          (fun num => try_solve_with_value valid 82 (Solver.new g).board row col num) with
      | none => rw [solve_cons_none hE hc0 hfs]
      | some b =>
        exfalso
        obtain ⟨num, _, hnum⟩ := List.exists_of_findSome?_eq_some hfs
        have hval : validate_solution b = true := try_solve_validates hnum
        have hmemE : (row, col) ∈ find_empty_cells (Solver.new g) :=
          hE ▸ List.mem_cons_self _ _
        obtain ⟨hr9, hc9, h0⟩ := mem_find_empty_cells hmemE
        have hpres := try_solve_preserves hnum hr9 hc9 h0
        have hdup' : has_fixed_duplicate b = true :=
          has_fixed_duplicate_transport hpres hdup
        rw [validate_false_of_dup hdup'] at hval
        exact absurd hval (by simp)

/-- Witness for C2: the test board with two 5s in row 0. -/
theorem claim_C2_witness :
    has_fixed_duplicate (Board.new dup_grid.value) = true ∧
    (solve is_valid_placement (Solver.new dup_grid)).1 =
      Except.error SudokuError.InvalidBoard :=
  ⟨by decide, claim_C2 is_valid_placement dup_grid (by decide)⟩

/-- Claim C3 (refuted): the vector path and the scalar fallback diverge
on an out-of-range cell value.  On the board whose cell (0, 0) holds 10
the vector path returns false but the fallback panics (the seen array
index is out of bounds, modelled as none), so the fallback does not
"reject rather than panic"; on the all-zero board both agree on false. -/
theorem claim_C3_bug :
    validate_solution board_ten = false ∧
    validate_solution_fallback board_ten = none ∧
    validate_solution board_zero = false ∧
    validate_solution_fallback board_zero = some false := by decide

/-- Claim C4 (refuted): is_valid_candidate is wrong on both vector
paths.  On the board with a single 1 at (0, 0), the x86 path answers
true for value 1 at (0, 1) although bit 0 is set in row mask 0 (its
_mm_movemask_epi8 only reads byte sign bits, so only digit 8 conflicts
are visible), while the aarch64 and scalar paths answer false.  On the
board with 1 at (0, 7) and 2 at (0, 8), the aarch64 path answers true
for value 1 at (0, 0) although 1 is placed in row 0 (SimdSolver::new
overwrote lane 7, which held the eighth cell's digit, with the ninth
cell's digit), while the scalar path answers false. -/
theorem claim_C4_bug :
    board_c4a.get 0 0 = 1 ∧
    (SimdSolverX86.new board_c4a).is_valid_candidate 0 1 1 = true ∧
    (SimdSolverA64.new board_c4a).is_valid_candidate 0 1 1 = false ∧
    (SimdSolverScalar.new board_c4a).is_valid_candidate 0 1 1 = false ∧
    board_c4b.get 0 7 = 1 ∧
    (SimdSolverA64.new board_c4b).is_valid_candidate 0 0 1 = true ∧
    (SimdSolverScalar.new board_c4b).is_valid_candidate 0 0 1 = false := by decide

/-- Claim C5 counterexample: on a puzzle with no empty cells, solve
returns Ok without running any branch, and has_unique_solution() is
true although the returned board differs from the reference solution —
so the flag is not "true iff a completed search branch produced a board
equal to the reference" in the no-empty-cells case. -/
theorem claim_C5_counterexample :
    find_empty_cells (Solver.new full_grid) = [] ∧
    (solve is_valid_placement (Solver.new full_grid)).1 = Except.ok classic_solution ∧
    ((solve is_valid_placement (Solver.new full_grid)).2).has_unique_solution = true ∧
    ((solve is_valid_placement (Solver.new full_grid)).2).board ≠
      (Solver.new full_grid).solution :=
  ⟨by rfl, by rfl, by rfl, by decide⟩

/-- Claim C5 (amended): after solve returns Ok, has_unique_solution
reports whether the winning branch's board equals the reference
solution when the puzzle had at least one empty cell (under the
sequential first-success schedule the completed successful branch is
exactly the winner); when the puzzle had no empty cells, the flag is
not updated and keeps its prior value (true at construction),
regardless of the reference. -/
theorem claim_C5_amended (valid : Board → Nat → Nat → Nat → Bool) (s : Solver)
    (v : List (List Nat)) (h : (solve valid s).1 = Except.ok v) :
    ((solve valid s).2).unique_solution =
      (if find_empty_cells s = [] then s.unique_solution
       else (((solve valid s).2).board == s.solution)) := by
  cases hE : find_empty_cells s with
  | nil =>
    by_cases hval : validate_solution s.board = true
    · rw [solve_nil hE, if_pos hval, if_pos rfl]
    · rw [solve_nil hE, if_neg hval] at h
      exact absurd h (by simp)
  | cons p rest =>
    obtain ⟨row, col⟩ := p
    rw [if_neg (by simp)]
    by_cases hc0 : s.candidates.getD (row * 9 + col) 0 = 0
    · rw [solve_cons_zero hE hc0] at h
      exact absurd h (by simp)
    · cases hfs : (sorted_candidates s row col).findSome?
          (fun num => try_solve_with_value valid 82 s.board row col num) with
      | none =>
        rw [solve_cons_none hE hc0 hfs] at h
        exact absurd h (by simp)
      | some b =>
        rw [solve_cons_some hE hc0 hfs]

/-- Witness for the amended C5 at the almost-complete demo puzzle
(one empty cell: the branch path runs and the winner matches). -/
theorem claim_C5_witness :
    ((solve is_valid_placement demo_solver).2).unique_solution =
      (if find_empty_cells demo_solver = [] then demo_solver.unique_solution
       else (((solve is_valid_placement demo_solver).2).board == demo_solver.solution)) :=
  claim_C5_amended is_valid_placement demo_solver classic_solution (by rfl)

/-- Claim C6: whenever solve returns Ok, every cell that was nonzero in
the puzzle holds the same value in the accepted board: the search only
writes to cells that are empty at the time of placement.  Holds for
every branch legality test `valid`. -/
theorem claim_C6 (valid : Board → Nat → Nat → Nat → Bool) (s : Solver)
    (v : List (List Nat)) (h : (solve valid s).1 = Except.ok v) :
    ∀ r c, r < 9 → c < 9 → s.board.get r c ≠ 0 →
      ((solve valid s).2).board.get r c = s.board.get r c := by
  intro r c hr hc hne
  cases hE : find_empty_cells s with
  | nil =>
    by_cases hval : validate_solution s.board = true
    · rw [solve_nil hE, if_pos hval]
    · rw [solve_nil hE, if_neg hval] at h
      exact absurd h (by simp)
  | cons p rest =>
    obtain ⟨row, col⟩ := p
    by_cases hc0 : s.candidates.getD (row * 9 + col) 0 = 0
    · rw [solve_cons_zero hE hc0] at h
      exact absurd h (by simp)
    · cases hfs : (sorted_candidates s row col).findSome?
          (fun num => try_solve_with_value valid 82 s.board row col num) with
      | none =>
        rw [solve_cons_none hE hc0 hfs] at h
        exact absurd h (by simp)
      | some b =>
        rw [solve_cons_some hE hc0 hfs]
        obtain ⟨num, _, hnum⟩ := List.exists_of_findSome?_eq_some hfs
        have hmemE : (row, col) ∈ find_empty_cells s := hE ▸ List.mem_cons_self _ _
        obtain ⟨hr9, hc9, h0⟩ := mem_find_empty_cells hmemE
        exact try_solve_preserves hnum hr9 hc9 h0 r c hr hc hne

/-- Witness for C6: the fixed 5 at (0, 0) of the demo puzzle survives. -/
theorem claim_C6_witness :
    ((solve is_valid_placement demo_solver).2).board.get 0 0 =
      demo_solver.board.get 0 0 :=
  claim_C6 is_valid_placement demo_solver classic_solution (by rfl) 0 0
    (by omega) (by omega) (by decide)

/-- The precomputed candidate masks are always 9-bit values: they start
from 0x1FF and are only ever intersected. -/
theorem precompute_candidates_lt (b : Board) :
    ∀ m ∈ precompute_candidates b, m < 512 := by
  have hfold : ∀ (l : List Nat) (row col : Nat) (acc : Nat), acc < 512 →
      l.foldl
        (fun m n =>
          if !(is_valid_placement b row col n) then m &&& (65535 ^^^ (1 <<< (n - 1))) else m)
        acc < 512 := by
    intro l
    induction l with
    | nil => intro row col acc hacc; exact hacc
    | cons n ns ih =>
      intro row col acc hacc
      rw [List.foldl_cons]
      apply ih
      split
      · exact Nat.lt_of_le_of_lt (Nat.and_le_left) hacc
      · exact hacc
  intro m hm
  rw [precompute_candidates] at hm
  obtain ⟨idx, _, hidx⟩ := List.mem_map.mp hm
  rw [← hidx]
  dsimp only
  split
  · exact hfold _ _ _ 511 (by omega)
  · omega

/-- Claim C7: for a solver built from a grid, whenever an empty cell
exists find_empty_cells is nonempty, and its first element — the
branching cell solve uses — is an empty cell whose candidate count
equals the global minimum over all empty cells and whose impact is
maximal among the cells achieving that minimum. -/
theorem claim_C7 (g : Grid) (hne : empty_cells (Solver.new g) ≠ []) :
    ∃ p rest, find_empty_cells (Solver.new g) = p :: rest ∧
      p ∈ empty_cells (Solver.new g) ∧
      (∀ q ∈ empty_cells (Solver.new g),
        cell_count (Solver.new g) p ≤ cell_count (Solver.new g) q) ∧
      (∀ q ∈ empty_cells (Solver.new g),
        cell_count (Solver.new g) q = cell_count (Solver.new g) p →
        cell_impact (Solver.new g) q ≤ cell_impact (Solver.new g) p) :=
  find_empty_cells_spec (Solver.new g) (precompute_candidates_lt _) hne

/-- Witness for C7 at the demo grid (one empty cell). -/
theorem claim_C7_witness :
    ∃ p rest, find_empty_cells (Solver.new demo_grid) = p :: rest ∧
      p ∈ empty_cells (Solver.new demo_grid) ∧
      (∀ q ∈ empty_cells (Solver.new demo_grid),
        cell_count (Solver.new demo_grid) p ≤ cell_count (Solver.new demo_grid) q) ∧
      (∀ q ∈ empty_cells (Solver.new demo_grid),
        cell_count (Solver.new demo_grid) q = cell_count (Solver.new demo_grid) p →
        cell_impact (Solver.new demo_grid) q ≤ cell_impact (Solver.new demo_grid) p) :=
  claim_C7 demo_grid (by decide)

/-- Claim C8 (refuted): the key closure passed to sort_by_key clones
the board and places num on the clone, but then computes
self.calculate_impact(row, col) from the solver's unmodified board and
candidates, so every candidate receives the identical key — the key
does not depend on, and does not measure, the placement of the
candidate value — and the stable sort leaves the candidates in the
candidate iterator's ascending digit order. -/
theorem claim_C8_bug (s : Solver) (row col n₁ n₂ : Nat) :
    sort_key s row col n₁ = sort_key s row col n₂ ∧
    sorted_candidates s row col =
      iter_candidates (s.candidates.getD (row * 9 + col) 0) :=
  ⟨sort_key_const s row col n₁ n₂, sorted_candidates_eq s row col⟩

/-- Claim C9: solve never changes the reference solution board or the
precomputed candidate array — only the working board and the uniqueness
flag may change; get_original_solution is unchanged by any solve call,
successful or not. -/
theorem claim_C9 (valid : Board → Nat → Nat → Nat → Bool) (s : Solver) :
    ((solve valid s).2).solution = s.solution ∧
    ((solve valid s).2).candidates = s.candidates ∧
    ((solve valid s).2).get_original_solution = s.get_original_solution := by
  cases hE : find_empty_cells s with
  | nil =>
    by_cases hval : validate_solution s.board = true
    · rw [solve_nil hE, if_pos hval]
      exact ⟨rfl, rfl, rfl⟩
    · rw [solve_nil hE, if_neg hval]
      exact ⟨rfl, rfl, rfl⟩
  | cons p rest =>
    obtain ⟨row, col⟩ := p
    by_cases hc0 : s.candidates.getD (row * 9 + col) 0 = 0
    · rw [solve_cons_zero hE hc0]
      exact ⟨rfl, rfl, rfl⟩
    · cases hfs : (sorted_candidates s row col).findSome?
          (fun num => try_solve_with_value valid 82 s.board row col num) with
      | none =>
        rw [solve_cons_none hE hc0 hfs]
        exact ⟨rfl, rfl, rfl⟩
      | some b =>
        rw [solve_cons_some hE hc0 hfs]
        exact ⟨rfl, rfl, rfl⟩

/-- Claim C10: when solve returns an error, the working board is
untouched, and get_solution still returns exactly the well-formed
puzzle matrix the solver was constructed from (the board is only
overwritten on the success path). -/
theorem claim_C10 (valid : Board → Nat → Nat → Nat → Bool) (g : Grid) (e : SudokuError)
    (hwf : WFMatrix g.value) (h : (solve valid (Solver.new g)).1 = Except.error e) :
    ((solve valid (Solver.new g)).2).board = (Solver.new g).board ∧
    ((solve valid (Solver.new g)).2).get_solution = g.value := by
  have hb : ((solve valid (Solver.new g)).2).board = (Solver.new g).board := by
    cases hE : find_empty_cells (Solver.new g) with
    | nil =>
      by_cases hval : validate_solution (Solver.new g).board = true
      · rw [solve_nil hE, if_pos hval] at h
        exact absurd h (by simp)
      · rw [solve_nil hE, if_neg hval]
    | cons p rest =>
      obtain ⟨row, col⟩ := p
      by_cases hc0 : (Solver.new g).candidates.getD (row * 9 + col) 0 = 0
      · rw [solve_cons_zero hE hc0]
      · cases hfs : (sorted_candidates (Solver.new g) row col).findSome?
            (fun num => try_solve_with_value valid 82 (Solver.new g).board row col num) with
        | none => rw [solve_cons_none hE hc0 hfs]
        | some b =>
          rw [solve_cons_some hE hc0 hfs] at h
          exact absurd h (by simp)
  refine ⟨hb, ?_⟩
  show ((solve valid (Solver.new g)).2).board.to_vec = g.value
  rw [hb]
  exact to_vec_new hwf

/-- Witness for C10: the stuck puzzle (empty candidate set at (0, 8))
fails and keeps its construction-time board. -/
theorem claim_C10_witness :
    ((solve is_valid_placement (Solver.new stuck_grid)).2).board =
      (Solver.new stuck_grid).board ∧
    ((solve is_valid_placement (Solver.new stuck_grid)).2).get_solution =
      stuck_grid.value :=
  claim_C10 is_valid_placement stuck_grid SudokuError.InvalidBoard
    ⟨by decide, by decide⟩ (by rfl)

end Sudoku
